import Mathlib

/-!
# The SM3 binding of `sm3.go`

`sm3.go` is a thin Go wrapper around the digest interface of a native
cryptographic library (reached through cgo, declared in `shim.h`).  The
development has three layers.

* `Native`: the five native entry points the wrapper calls, taken as a
  parameter, together with the pointer conversion `engineRef` that lives in
  another file of the package.
* the wrapper itself (`NewSM3HashWithEngine`, `Close`, `Reset`, `Write`,
  `Sum`, `SM3`), translated function by function from `sm3.go` as explicit
  state passing over a `World`: the state of the native library plus a ghost
  log of the native calls made so far.
* `specNative`: the digest engine the specification describes, used where a
  statement is about what the native library computes.
-/

namespace OpenSSL

/-! ## Data model -/

/-- A Go `byte`. -/
abbrev Byte := Fin 256

/-- The constant `SM3_DIGEST_LENGTH` of `sm3.go`. -/
def SM3_DIGEST_LENGTH : Nat := 32

/-- A Go `[32]byte`: exactly thirty-two bytes. -/
abbrev Digest := { l : List Byte // l.length = 32 }

/-- The zero value of `[32]byte`, which a named result holds until written. -/
def zeroDigest : Digest := ⟨List.replicate 32 0, by decide⟩

/-- A C pointer: `none` is the nil pointer, `some a` a non-nil address. -/
abbrev Ptr := Option Nat

/-- A Go `error` built by `errors.New`, identified by its message. -/
abbrev Error := String

/-- The Go struct `SM3Hash`: a native context pointer and an engine pointer. -/
structure SM3Hash where
  ctx : Ptr
  engine : Ptr
  deriving DecidableEq, Repr

/-- One call made across the cgo boundary (ghost log entry). -/
inductive Call where
  | ctxNew
  | ctxFree (ctx : Ptr)
  | digestInit (ctx : Ptr) (md : Nat) (engine : Ptr)
  | digestUpdate (ctx : Ptr) (data : List Byte)
  | digestFinal (ctx : Ptr)
  deriving DecidableEq, Repr

/-- The native library as `sm3.go` sees it.  `σ` is the library's own state.
Each entry point maps the state before the call to its C result and the state
after.  `X_EVP_DigestFinal_ex` receives the contents of the output buffer and
returns the contents it leaves there.  `engineRef` turns the Go engine pointer
into the native one. -/
structure Native (σ : Type) where
  X_EVP_MD_CTX_new : σ → Ptr × σ
  X_EVP_MD_CTX_free : Ptr → σ → σ
  X_EVP_sm3 : Nat
  X_EVP_DigestInit_ex : Ptr → Nat → Ptr → σ → Int × σ
  X_EVP_DigestUpdate : Ptr → List Byte → σ → Int × σ
  X_EVP_DigestFinal_ex : Ptr → Digest → σ → Int × Digest × σ
  engineRef : Ptr → Ptr

/-- The world a wrapper call runs in: the native state and the log of native
calls made so far, oldest first. -/
structure World (σ : Type) where
  native : σ
  calls : List Call

variable {σ : Type}

/-! ## The wrapper, function by function -/

/-- The method `Size`. -/
def Size (_s : SM3Hash) : Nat := SM3_DIGEST_LENGTH

/-- The method `Close`: frees a non-nil context and sets the field to nil. -/
def Close (N : Native σ) (s : SM3Hash) (w : World σ) : SM3Hash × World σ :=
  if s.ctx ≠ none then
    ({ s with ctx := none },
     { native := N.X_EVP_MD_CTX_free s.ctx w.native,
       calls := w.calls ++ [Call.ctxFree s.ctx] })
  else (s, w)

/-- The method `Reset`: one `X_EVP_DigestInit_ex` call on the context. -/
def Reset (N : Native σ) (s : SM3Hash) (w : World σ) : Option Error × World σ :=
  let r := N.X_EVP_DigestInit_ex s.ctx N.X_EVP_sm3 (N.engineRef s.engine) w.native
  let w1 : World σ :=
    { native := r.2,
      calls := w.calls ++ [Call.digestInit s.ctx N.X_EVP_sm3 (N.engineRef s.engine)] }
  if 1 ≠ r.1 then (some "openssl: sm3: cannot init digest ctx", w1)
  else (none, w1)

/-- The function `NewSM3HashWithEngine`.  The finalizer it registers only
runs once the hash is unreachable and is not part of the model. -/
def NewSM3HashWithEngine (N : Native σ) (e : Ptr) (w : World σ) :
    (Option SM3Hash × Option Error) × World σ :=
  let r := N.X_EVP_MD_CTX_new w.native
  let w1 : World σ := { native := r.2, calls := w.calls ++ [Call.ctxNew] }
  let hash : SM3Hash := { ctx := r.1, engine := e }
  if hash.ctx = none then
    ((none, some "openssl: sm3: unable to allocate ctx"), w1)
  else
    match Reset N hash w1 with
    | (some err, w2) => ((none, some err), w2)
    | (none, w2) => ((some hash, none), w2)

/-- The function `NewSM3Hash`. -/
def NewSM3Hash (N : Native σ) (w : World σ) :
    (Option SM3Hash × Option Error) × World σ :=
  NewSM3HashWithEngine N none w

/-- The method `Write`.  The outer `Option` is `none` when the call panics:
`&p[0]` is a checked index into the slice. -/
def Write (N : Native σ) (s : SM3Hash) (p : List Byte) (w : World σ) :
    Option ((Nat × Option Error) × World σ) :=
  if p.length = 0 then some ((0, none), w)
  else
    match p[0]? with
    | none => none
    | some _ =>
      let r := N.X_EVP_DigestUpdate s.ctx p w.native
      let w1 : World σ :=
        { native := r.2, calls := w.calls ++ [Call.digestUpdate s.ctx p] }
      if 1 ≠ r.1 then some ((0, some "openssl: sm3: cannot update digest"), w1)
      else some ((p.length, none), w1)

/-- The method `Sum`: finalize into the zeroed result, then `Reset`. -/
def Sum (N : Native σ) (s : SM3Hash) (w : World σ) :
    (Digest × Option Error) × World σ :=
  let r := N.X_EVP_DigestFinal_ex s.ctx zeroDigest w.native
  let result : Digest := r.2.1
  let w1 : World σ :=
    { native := r.2.2, calls := w.calls ++ [Call.digestFinal s.ctx] }
  if 1 ≠ r.1 then ((result, some "openssl: sm3: cannot finalize ctx"), w1)
  else
    let q := Reset N s w1
    ((result, q.1), q.2)

/-- The function `SM3`.  The deferred `Close` runs after the results are
fixed, so it only shows in the world.  `none` is a panic. -/
def SM3 (N : Native σ) (data : List Byte) (w : World σ) :
    Option ((Digest × Option Error) × World σ) :=
  let result : Digest := zeroDigest
  match NewSM3Hash N w with
  | ((_, some err), w1) => some ((result, some err), w1)
  | ((none, none), _) => none
  | ((some hash, none), w1) =>
    match Write N hash data w1 with
    | none => none
    | some ((_, some err), w2) => some ((result, some err), (Close N hash w2).2)
    | some ((_, none), w2) =>
      let r := Sum N hash w2
      some (r.1, (Close N hash r.2).2)

/-! ## Running a sequence of calls -/

/-- The calls `Write(c1); ...; Write(cn)` on one hash, in order, each result
kept.  `none` when some call panics. -/
def WriteEach (N : Native σ) (s : SM3Hash) :
    List (List Byte) → World σ → Option (List (Nat × Option Error) × World σ)
  | [], w => some ([], w)
  | c :: cs, w =>
    match Write N s c w with
    | none => none
    | some (r, w1) =>
      match WriteEach N s cs w1 with
      | none => none
      | some (rs, w2) => some (r :: rs, w2)

/-- The calls `Write(c1); ...; Write(cn); Sum()` on one hash: the results of
the writes and the pair `Sum` returns. -/
def WriteEachThenSum (N : Native σ) (s : SM3Hash) (chunks : List (List Byte))
    (w : World σ) :
    Option ((List (Nat × Option Error) × (Digest × Option Error)) × World σ) :=
  match WriteEach N s chunks w with
  | none => none
  | some (rs, w1) =>
    let r := Sum N s w1
    some ((rs, r.1), r.2)

/-- The one-shot digest as the specification words it: construct, write once,
finalize, stopping at the first step that reports an error, whose error is
returned with the zero digest. -/
def oneShotBySteps (N : Native σ) (data : List Byte) (w : World σ) :
    Option (Digest × Option Error) :=
  let built := NewSM3Hash N w
  match built.1.2, built.1.1 with
  | some err, _ => some (zeroDigest, some err)
  | none, none => none
  | none, some hash =>
    (Write N hash data built.2).map fun written =>
      match written.1.2 with
      | some err => (zeroDigest, some err)
      | none => (Sum N hash written.2).1

/-- How many times a context was handed to `X_EVP_MD_CTX_free` in a log. -/
def freeCount (calls : List Call) : Nat :=
  (calls.filter fun c => match c with
    | Call.ctxFree _ => true
    | _ => false).length

/-! ## A native library that reports fixed results

Every entry point answers with a preset result and keeps no state.  It stands
for a library whose calls fail, which the wrapper has an error path for. -/

/-- A stateless native library: allocation returns `alloc`, the three digest
calls return `rcInit`, `rcUpdate` and `rcFinal` and leave the buffer alone. -/
def fixedNative (alloc : Ptr) (rcInit rcUpdate rcFinal : Int) : Native Unit where
  X_EVP_MD_CTX_new := fun u => (alloc, u)
  X_EVP_MD_CTX_free := fun _ u => u
  X_EVP_sm3 := 0
  X_EVP_DigestInit_ex := fun _ _ _ u => (rcInit, u)
  X_EVP_DigestUpdate := fun _ _ u => (rcUpdate, u)
  X_EVP_DigestFinal_ex := fun _ buf u => (rcFinal, buf, u)
  engineRef := fun e => e

/-- The world before any native call, for a stateless library. -/
def emptyWorld : World Unit := { native := (), calls := [] }

/-! ## The interface assertion `var _ hash.Hash = new(SM3Hash)` -/

/-- The Go types that occur in the signatures involved. -/
inductive GoType where
  | int
  | error
  | byteSlice
  | byteArray (n : Nat)
  deriving DecidableEq, Repr

/-- A method signature: name, parameter types, result types. -/
structure Method where
  name : String
  params : List GoType
  results : List GoType
  deriving DecidableEq, Repr

/-- The method set of Go's standard interface `hash.Hash` (which embeds
`io.Writer`). -/
def hashHashMethods : List Method :=
  [ ⟨"Write", [GoType.byteSlice], [GoType.int, GoType.error]⟩,
    ⟨"Sum", [GoType.byteSlice], [GoType.byteSlice]⟩,
    ⟨"Reset", [], []⟩,
    ⟨"Size", [], [GoType.int]⟩,
    ⟨"BlockSize", [], [GoType.int]⟩ ]

/-- The methods `sm3.go` declares on `*SM3Hash`, in source order. -/
def SM3HashMethods : List Method :=
  [ ⟨"Size", [], [GoType.int]⟩,
    ⟨"Close", [], []⟩,
    ⟨"Reset", [], [GoType.error]⟩,
    ⟨"Write", [GoType.byteSlice], [GoType.int, GoType.error]⟩,
    ⟨"Sum", [], [GoType.byteArray 32, GoType.error]⟩ ]

/-- The interface methods a method set lacks: Go accepts the assignment of a
type to an interface exactly when this list is empty. -/
def missingMethods (declared iface : List Method) : List Method :=
  iface.filter fun m => !(declared.contains m)

/-- Whether a method set satisfies an interface. -/
def implements (declared iface : List Method) : Bool :=
  (missingMethods declared iface).isEmpty

/-! ## The digest engine of the specification -/

/-- Modelled from the spec: the field `words` of the digest state kept inside
the native library: eight 32-bit words, in order. -/
structure Words where
  a : Nat
  b : Nat
  c : Nat
  d : Nat
  e : Nat
  f : Nat
  g : Nat
  h : Nat
  deriving DecidableEq, Repr

/-- Modelled from the spec: the fixed initialization vector ("standard SM3
IV"); the native library that holds it is not part of the source. -/
def IV : Words :=
  ⟨0x7380166f, 0x4914b2b9, 0x172442d7, 0xda8a0600,
   0xa96f30bc, 0x163138aa, 0xe38dee4d, 0xb0fb0e4e⟩

/-- Modelled from the spec: the left rotation of a 32-bit word that the
native compression function uses. -/
def rotl (x n : Nat) : Nat :=
  ((x <<< (n % 32)) ||| (x >>> (32 - n % 32))) % 2 ^ 32

/-- Modelled from the spec: the round constants `T_j` of the native
compression function. -/
def Tj (j : Nat) : Nat := if j < 16 then 0x79cc4519 else 0x7a879d8a

/-- Modelled from the spec: the boolean function `FF0/FF1`, switching at
round 16. -/
def FF (j x y z : Nat) : Nat :=
  if j < 16 then x ^^^ y ^^^ z else (x &&& y) ||| (x &&& z) ||| (y &&& z)

/-- Modelled from the spec: the boolean function `GG0/GG1`, switching at
round 16. -/
def GG (j x y z : Nat) : Nat :=
  if j < 16 then x ^^^ y ^^^ z else (x &&& y) ||| ((x ^^^ 0xffffffff) &&& z)

/-- Modelled from the spec: the permutation `P0`. -/
def P0 (x : Nat) : Nat := x ^^^ rotl x 9 ^^^ rotl x 17

/-- Modelled from the spec: the permutation `P1`. -/
def P1 (x : Nat) : Nat := x ^^^ rotl x 15 ^^^ rotl x 23

/-- Modelled from the spec: step 1 of the native compression function, the
big-endian 32-bit words of a block, four bytes at a time. -/
def parseWords : List Byte → List Nat
  | b0 :: b1 :: b2 :: b3 :: rest =>
    (b0.val * 2 ^ 24 + b1.val * 2 ^ 16 + b2.val * 2 ^ 8 + b3.val) :: parseWords rest
  | _ => []

/-- Modelled from the spec: one step of the native message expansion, which
appends `W[j]` for `j = |W|`. -/
def expandStep (W : List Nat) : List Nat :=
  let j := W.length
  W ++ [P1 (W.getD (j - 16) 0 ^^^ W.getD (j - 9) 0 ^^^ rotl (W.getD (j - 3) 0) 15)
          ^^^ rotl (W.getD (j - 13) 0) 7 ^^^ W.getD (j - 6) 0]

/-- Modelled from the spec: the message expansion `W[0..67]` of a block. -/
def expand (block : List Byte) : List Nat := expandStep^[52] (parseWords block)

/-- Modelled from the spec: round `j` of the native compression function on
the eight working registers, with `W'[j] = W[j] XOR W[j+4]`. -/
def round (W : List Nat) (v : Words) (j : Nat) : Words :=
  let ss1 := rotl ((rotl v.a 12 + v.e + rotl (Tj j) j) % 2 ^ 32) 7
  let ss2 := ss1 ^^^ rotl v.a 12
  let tt1 := (FF j v.a v.b v.c + v.d + ss2 + (W.getD j 0 ^^^ W.getD (j + 4) 0)) % 2 ^ 32
  let tt2 := (GG j v.e v.f v.g + v.h + ss1 + W.getD j 0) % 2 ^ 32
  ⟨tt1, v.a, rotl v.b 9, v.c, P0 tt2, v.e, rotl v.f 19, v.g⟩

/-- Modelled from the spec: the compression function the native library
applies to each 64-byte block: expansion, 64 rounds, feed-forward. -/
def compress (v : Words) (block : List Byte) : Words :=
  let W := expand block
  let r := (List.range 64).foldl (round W) v
  ⟨r.a ^^^ v.a, r.b ^^^ v.b, r.c ^^^ v.c, r.d ^^^ v.d,
   r.e ^^^ v.e, r.f ^^^ v.f, r.g ^^^ v.g, r.h ^^^ v.h⟩

/-- The low eight bits of a number, as a byte. -/
def toByte (x : Nat) : Byte := ⟨x % 256, Nat.mod_lt x (by decide)⟩

/-- The four bytes of a 32-bit word, big-endian. -/
def be32 (x : Nat) : List Byte :=
  [toByte (x >>> 24), toByte (x >>> 16), toByte (x >>> 8), toByte x]

/-- The eight bytes of a 64-bit number, big-endian. -/
def be64 (x : Nat) : List Byte :=
  be32 (x >>> 32) ++ be32 x

/-- Modelled from the spec: the digest the native library writes out, the
eight state words as big-endian 32-bit integers. -/
def serialize (v : Words) : Digest :=
  ⟨be32 v.a ++ be32 v.b ++ be32 v.c ++ be32 v.d ++
   be32 v.e ++ be32 v.f ++ be32 v.g ++ be32 v.h, rfl⟩

/-- Modelled from the spec: the entity `DigestState`, the contents of a native
digest context: running words, pending bytes, 64-bit byte count. -/
structure DigestState where
  words : Words
  buffer : List Byte
  totalLength : Nat
  deriving DecidableEq, Repr

/-- Modelled from the spec: the state `reset()` produces inside the native
library: the IV, an empty buffer, length zero. -/
def DigestState.initial : DigestState :=
  { words := IV, buffer := [], totalLength := 0 }

/-- Modelled from the spec: the block loop of the native `write`: compresses
every complete 64-byte block at the front of the buffer and returns the words
with the bytes left over.  One unit of fuel per block. -/
def absorb : Nat → Words → List Byte → Words × List Byte
  | 0, v, buf => (v, buf)
  | fuel + 1, v, buf =>
    if 64 ≤ buf.length then absorb fuel (compress v (buf.take 64)) (buf.drop 64)
    else (v, buf)

/-- Modelled from the spec: the operation `write(data)` of the native digest
context: append to the buffer, count the bytes in the 64-bit length, compress
the complete blocks. -/
def DigestState.write (st : DigestState) (data : List Byte) : DigestState :=
  let buf := st.buffer ++ data
  let r := absorb buf.length st.words buf
  { words := r.1, buffer := r.2,
    totalLength := (st.totalLength + data.length) % 2 ^ 64 }

/-- Modelled from the spec: the padding of the native `finalize`: the pending
bytes, `0x80`, zero bytes up to 56 modulo 64, then the bit length as a 64-bit
big-endian number. -/
def DigestState.padded (st : DigestState) : List Byte :=
  st.buffer ++ [0x80] ++ List.replicate ((119 - st.buffer.length % 64) % 64) 0 ++
    be64 ((st.totalLength * 8) % 2 ^ 64)

/-- Modelled from the spec: the digest part of `finalize()` inside the native
library: pad, compress the padding blocks, serialize the words.  The reset
that the specification puts at the end of `finalize()` is the `Reset` call of
the wrapper method `Sum`, so it is not repeated here. -/
def DigestState.final (st : DigestState) : Digest × DigestState :=
  let tail := st.padded
  let r := absorb tail.length st.words tail
  (serialize r.1, { words := r.1, buffer := r.2, totalLength := st.totalLength })

/-- Modelled from the spec: the memory of the native library, the contexts it
has handed out: slot `k` holds the state behind pointer `k`, or `none` once
it is freed. -/
abbrev Heap := List (Option DigestState)

/-- The live state behind a pointer, if any. -/
def Heap.lookup (hp : Heap) : Ptr → Option DigestState
  | none => none
  | some k => (hp.getD k none)

/-- Overwrites the slot behind a pointer. -/
def Heap.store (hp : Heap) (p : Ptr) (v : Option DigestState) : Heap :=
  match p with
  | none => hp
  | some k => hp.set k v

/-- Modelled from the spec: the native digest library behind `shim.h`, which
is not part of the source: allocation hands out a new context, and the three
digest calls are the operations `reset`, `write` and `finalize` of the SM3
digest engine on the context named.  A call on a pointer that names no live
context reports failure and changes nothing.  The engine parameter has no
effect. -/
def specNative : Native Heap where
  X_EVP_MD_CTX_new := fun hp => (some hp.length, hp ++ [some DigestState.initial])
  X_EVP_MD_CTX_free := fun p hp => hp.store p none
  X_EVP_sm3 := 0
  X_EVP_DigestInit_ex := fun p _ _ hp =>
    match hp.lookup p with
    | none => (0, hp)
    | some _ => (1, hp.store p (some DigestState.initial))
  X_EVP_DigestUpdate := fun p data hp =>
    match hp.lookup p with
    | none => (0, hp)
    | some st => (1, hp.store p (some (st.write data)))
  X_EVP_DigestFinal_ex := fun p buf hp =>
    match hp.lookup p with
    | none => (0, buf, hp)
    | some st => (1, st.final.1, hp.store p (some st.final.2))
  engineRef := fun e => e

/-- Modelled from the spec: the digest of a whole message as the native
engine computes it on its own: write once into the initial state, finalize. -/
def sm3Digest (data : List Byte) : Digest :=
  (DigestState.initial.write data).final.1

/-- The published SM3 test vector for the empty message. -/
def vectorEmpty : List Byte :=
  [0x1a, 0xb2, 0x1d, 0x83, 0x55, 0xcf, 0xa1, 0x7f, 0x8e, 0x61, 0x19, 0x48,
   0x31, 0xe8, 0x1a, 0x8f, 0x22, 0xbe, 0xc8, 0xc7, 0x28, 0xfe, 0xfb, 0x74,
   0x7e, 0xd0, 0x35, 0xeb, 0x50, 0x82, 0xaa, 0x2b]

/-- The published SM3 test vector for the message `abc`. -/
def vectorAbc : List Byte :=
  [0x66, 0xc7, 0xf0, 0xf4, 0x62, 0xee, 0xed, 0xd9, 0xd1, 0xf2, 0xd4, 0x6b,
   0xdc, 0x10, 0xe4, 0xe2, 0x41, 0x67, 0xc4, 0x87, 0x5c, 0xf2, 0xf7, 0xa2,
   0x29, 0x7d, 0xa0, 0x2b, 0x8f, 0x4b, 0xa8, 0xe0]

/-! ## The wrapper on any native library -/

/-- The method `Write` never takes its panic branch: its result spelled out
without the index check. -/
theorem Write_eq (N : Native σ) (s : SM3Hash) (p : List Byte) (w : World σ) :
    Write N s p w = some
      (if p.length = 0 then ((0, none), w)
       else if 1 ≠ (N.X_EVP_DigestUpdate s.ctx p w.native).1 then
         ((0, some "openssl: sm3: cannot update digest"),
          { native := (N.X_EVP_DigestUpdate s.ctx p w.native).2,
            calls := w.calls ++ [Call.digestUpdate s.ctx p] })
       else
         ((p.length, none),
          { native := (N.X_EVP_DigestUpdate s.ctx p w.native).2,
            calls := w.calls ++ [Call.digestUpdate s.ctx p] })) := by
  cases p with
  | nil => simp [Write]
  | cons b bs =>
    simp only [Write, List.length_cons, Nat.succ_ne_zero, if_false,
      List.getElem?_cons_zero]
    split <;> rfl

/-- C9: `Write` of the empty slice returns `(0, nil)` in the unchanged world
(native state and call log as before, so no native call was made), and for no
slice at all does `Write` reach the out-of-range panic of `p[0]`. -/
theorem Write_empty_untouched (N : Native σ) (s : SM3Hash) (w : World σ) :
    Write N s [] w = some ((0, none), w) ∧
    ∀ p : List Byte, Write N s p w ≠ none := by
  refine ⟨by simp [Write], fun p => ?_⟩
  rw [Write_eq]
  exact Option.some_ne_none _

/-- C10: after `Close` the context field is nil and the engine field is as
before; closing a hash whose context is nil changes neither hash nor world;
a second `Close` changes nothing more; and two closes in a row log exactly
one native free for a live context and none for a nil one. -/
theorem Close_idempotent (N : Native σ) (s : SM3Hash) (w : World σ) :
    (Close N s w).1.ctx = none ∧
    (Close N s w).1.engine = s.engine ∧
    (∀ e : Ptr, Close N ⟨none, e⟩ w = (⟨none, e⟩, w)) ∧
    Close N (Close N s w).1 (Close N s w).2 = Close N s w ∧
    freeCount (Close N (Close N s w).1 (Close N s w).2).2.calls =
      freeCount w.calls + (if s.ctx = none then 0 else 1) := by
  obtain ⟨ctx, engine⟩ := s
  cases ctx with
  | none => simp [Close]
  | some k => simp [Close, freeCount, List.filter_append]

/-- C1: when the native finalize call of `Sum` returns 1, `Sum` runs `Reset`
on the same hash in the world finalize left, returns the digest finalize wrote
together with the error of that `Reset`, and leaves the native state that
`X_EVP_DigestInit_ex` produced for the same context and engine; the two native
calls logged are the finalize and that init. -/
theorem Sum_finalize_then_Reset (N : Native σ) (s : SM3Hash) (w : World σ)
    (hfin : (N.X_EVP_DigestFinal_ex s.ctx zeroDigest w.native).1 = 1) :
    Sum N s w =
      (((N.X_EVP_DigestFinal_ex s.ctx zeroDigest w.native).2.1,
        (Reset N s { native := (N.X_EVP_DigestFinal_ex s.ctx zeroDigest w.native).2.2,
                     calls := w.calls ++ [Call.digestFinal s.ctx] }).1),
       (Reset N s { native := (N.X_EVP_DigestFinal_ex s.ctx zeroDigest w.native).2.2,
                    calls := w.calls ++ [Call.digestFinal s.ctx] }).2) ∧
    (Sum N s w).2.native =
      (N.X_EVP_DigestInit_ex s.ctx N.X_EVP_sm3 (N.engineRef s.engine)
        (N.X_EVP_DigestFinal_ex s.ctx zeroDigest w.native).2.2).2 ∧
    (Sum N s w).2.calls =
      w.calls ++ [Call.digestFinal s.ctx,
                  Call.digestInit s.ctx N.X_EVP_sm3 (N.engineRef s.engine)] ∧
    (Sum N s w).1.1.val.length = SM3_DIGEST_LENGTH := by
  refine ⟨?_, ?_, ?_, ?_⟩
  · simp [Sum, hfin]
  · simp only [Sum, hfin, ne_eq, not_true_eq_false, if_false, Reset]
    split <;> rfl
  · simp only [Sum, hfin, ne_eq, not_true_eq_false, if_false, Reset]
    split <;> simp
  · exact (Sum N s w).1.1.property

/-- C1, at a concrete input: a library whose calls all return 1, a hash on
context 1. -/
theorem Sum_finalize_then_Reset_witness :
    ((fixedNative (some 1) 1 1 1).X_EVP_DigestFinal_ex (some 1) zeroDigest ()).1 = 1 ∧
    (Sum (fixedNative (some 1) 1 1 1) ⟨some 1, none⟩ emptyWorld).2.calls =
      [] ++ [Call.digestFinal (some 1), Call.digestInit (some 1) 0 none] :=
  ⟨by decide,
   (Sum_finalize_then_Reset (fixedNative (some 1) 1 1 1) ⟨some 1, none⟩ emptyWorld
      (by decide)).2.2.1⟩

/-- C3: the pair `SM3` returns is the pair of the three steps taken in order,
construct, write once, finalize: the error of the first failing step with the
zero digest, and the pair of `Sum` when construction and `Write` succeed. -/
theorem SM3_eq_oneShotBySteps (N : Native σ) (data : List Byte) (w : World σ) :
    (SM3 N data w).map Prod.fst = oneShotBySteps N data w := by
  unfold SM3 oneShotBySteps
  rcases hnew : NewSM3Hash N w with ⟨⟨hash, err⟩, w1⟩
  cases err with
  | some e => simp
  | none =>
    cases hash with
    | none => simp
    | some hash =>
      simp only
      rcases hwr : Write N hash data w1 with _ | ⟨⟨n, werr⟩, w2⟩
      · simp
      · cases werr <;> simp

/-- C4, the counterexample: with a native update call that returns 0, `Write`
of one byte fails: it returns the update error and a byte count of 0, not the
length 1 with a nil error. -/
theorem Write_fails_when_update_fails :
    (Write (fixedNative (some 1) 1 0 1) ⟨some 1, none⟩ [0x61] emptyWorld).map Prod.fst =
      some (0, some "openssl: sm3: cannot update digest") ∧
    (Write (fixedNative (some 1) 1 0 1) ⟨some 1, none⟩ [0x61] emptyWorld).map Prod.fst ≠
      some ([(0x61 : Byte)].length, none) := by
  decide

/-- C4, as amended: `Write` returns `len(data)` and a nil error when the data
is empty or the native update call returns 1, and a count of 0 with the update
error otherwise. -/
theorem Write_result (N : Native σ) (s : SM3Hash) (data : List Byte) (w : World σ) :
    (Write N s data w).map Prod.fst = some
      (if data.length = 0 ∨ (N.X_EVP_DigestUpdate s.ctx data w.native).1 = 1 then
        (data.length, none)
       else (0, some "openssl: sm3: cannot update digest")) := by
  rw [Write_eq]
  by_cases h0 : data.length = 0
  · simp [h0]
  · by_cases h1 : (N.X_EVP_DigestUpdate s.ctx data w.native).1 = 1
    · simp [h0, h1]
    · have h1' : ¬ (1 = (N.X_EVP_DigestUpdate s.ctx data w.native).1) := fun h => h1 h.symm
      simp [h0, h1, h1']

/-- C5, the counterexample: finalize reports success (returns 1) and still
`Sum` returns a non-nil error, the one of the `Reset` it runs. -/
theorem Sum_error_despite_finalize_success :
    ((fixedNative (some 1) 0 1 1).X_EVP_DigestFinal_ex (some 1) zeroDigest ()).1 = 1 ∧
    (Sum (fixedNative (some 1) 0 1 1) ⟨some 1, none⟩ emptyWorld).1.2 =
      some "openssl: sm3: cannot init digest ctx" ∧
    (Sum (fixedNative (some 1) 0 1 1) ⟨some 1, none⟩ emptyWorld).1.2 ≠ none := by
  decide

/-- C5, as amended: each operation returns a nil error exactly when every
native call it makes reports success, and a failing native call is reported
with the message of its kind; the four messages are pairwise different. -/
theorem errors_by_failure_kind (N : Native σ) (s : SM3Hash) (e : Ptr)
    (p : List Byte) (w : World σ) :
    (NewSM3HashWithEngine N e w).1.2 =
      (if (N.X_EVP_MD_CTX_new w.native).1 = none then
        some "openssl: sm3: unable to allocate ctx"
       else if (N.X_EVP_DigestInit_ex (N.X_EVP_MD_CTX_new w.native).1 N.X_EVP_sm3
           (N.engineRef e) (N.X_EVP_MD_CTX_new w.native).2).1 = 1 then none
       else some "openssl: sm3: cannot init digest ctx") ∧
    (Reset N s w).1 =
      (if (N.X_EVP_DigestInit_ex s.ctx N.X_EVP_sm3 (N.engineRef s.engine) w.native).1 = 1
       then none else some "openssl: sm3: cannot init digest ctx") ∧
    (Write N s p w).map (fun r => r.1.2) = some
      (if p.length = 0 ∨ (N.X_EVP_DigestUpdate s.ctx p w.native).1 = 1 then none
       else some "openssl: sm3: cannot update digest") ∧
    (Sum N s w).1.2 =
      (if (N.X_EVP_DigestFinal_ex s.ctx zeroDigest w.native).1 = 1 then
        (if (N.X_EVP_DigestInit_ex s.ctx N.X_EVP_sm3 (N.engineRef s.engine)
            (N.X_EVP_DigestFinal_ex s.ctx zeroDigest w.native).2.2).1 = 1 then none
         else some "openssl: sm3: cannot init digest ctx")
       else some "openssl: sm3: cannot finalize ctx") ∧
    List.Pairwise (fun a b : Error => a ≠ b)
      ["openssl: sm3: unable to allocate ctx", "openssl: sm3: cannot init digest ctx",
       "openssl: sm3: cannot update digest", "openssl: sm3: cannot finalize ctx"] := by
  have hReset : ∀ (t : SM3Hash) (v : World σ), (Reset N t v).1 =
      (if (N.X_EVP_DigestInit_ex t.ctx N.X_EVP_sm3 (N.engineRef t.engine) v.native).1 = 1
       then none else some "openssl: sm3: cannot init digest ctx") := by
    intro t v
    unfold Reset
    by_cases h : (N.X_EVP_DigestInit_ex t.ctx N.X_EVP_sm3 (N.engineRef t.engine) v.native).1 = 1
    · simp [h]
    · have h' : ¬ (1 = (N.X_EVP_DigestInit_ex t.ctx N.X_EVP_sm3 (N.engineRef t.engine) v.native).1) :=
        fun q => h q.symm
      simp [h, h']
  refine ⟨?_, hReset s w, ?_, ?_, by decide⟩
  · unfold NewSM3HashWithEngine
    by_cases ha : (N.X_EVP_MD_CTX_new w.native).1 = none
    · simp [ha]
    · simp only [ha, if_false]
      have hr := hReset ⟨(N.X_EVP_MD_CTX_new w.native).1, e⟩
        { native := (N.X_EVP_MD_CTX_new w.native).2, calls := w.calls ++ [Call.ctxNew] }
      simp only at hr
      rcases hq : Reset N ⟨(N.X_EVP_MD_CTX_new w.native).1, e⟩
        { native := (N.X_EVP_MD_CTX_new w.native).2, calls := w.calls ++ [Call.ctxNew] }
        with ⟨err, w2⟩
      rw [hq] at hr
      simp only at hr
      cases err with
      | none => simp only; exact hr
      | some m => simp only; exact hr
  · rw [Write_eq]
    by_cases h0 : p.length = 0
    · simp [h0]
    · by_cases h1 : (N.X_EVP_DigestUpdate s.ctx p w.native).1 = 1
      · simp [h0, h1]
      · have h1' : ¬ (1 = (N.X_EVP_DigestUpdate s.ctx p w.native).1) := fun h => h1 h.symm
        simp [h0, h1, h1']
  · unfold Sum
    by_cases hf : (N.X_EVP_DigestFinal_ex s.ctx zeroDigest w.native).1 = 1
    · simp only [hf, ne_eq, not_true_eq_false, if_false, if_true]
      exact hReset s _
    · have hf' : ¬ (1 = (N.X_EVP_DigestFinal_ex s.ctx zeroDigest w.native).1) :=
        fun q => hf q.symm
      simp [hf, hf']

/-- C8: the method set of `*SM3Hash` does not satisfy `hash.Hash`, against
the assertion `var _ hash.Hash = new(SM3Hash)`: `Sum` and `Reset` have other
signatures and `BlockSize` is absent; `Write` and `Size` are as required, and
`Size` returns 32. -/
theorem SM3Hash_misses_hash_Hash :
    implements SM3HashMethods hashHashMethods = false ∧
    missingMethods SM3HashMethods hashHashMethods =
      [⟨"Sum", [GoType.byteSlice], [GoType.byteSlice]⟩,
       ⟨"Reset", [], []⟩,
       ⟨"BlockSize", [], [GoType.int]⟩] ∧
    ∀ s : SM3Hash, Size s = 32 := by
  refine ⟨by decide, by decide, fun _ => rfl⟩

/-! ## The digest engine: buffering -/

/-- A buffer shorter than one block is returned as it is. -/
theorem absorb_short (f : Nat) (v : Words) (buf : List Byte) (h : buf.length < 64) :
    absorb f v buf = (v, buf) := by
  cases f with
  | zero => rfl
  | succ f => simp [absorb, Nat.not_le.mpr h]

/-- The result does not depend on the fuel once there is one unit per block. -/
theorem absorb_fuel (f : Nat) : ∀ (g : Nat) (v : Words) (buf : List Byte),
    buf.length / 64 ≤ f → buf.length / 64 ≤ g → absorb f v buf = absorb g v buf := by
  induction f with
  | zero =>
    intro g v buf hf _
    have hlt : buf.length < 64 := by omega
    rw [absorb_short 0 v buf hlt, absorb_short g v buf hlt]
  | succ f ih =>
    intro g v buf hf hg
    by_cases hlt : buf.length < 64
    · rw [absorb_short _ v buf hlt, absorb_short g v buf hlt]
    · have hge : 64 ≤ buf.length := Nat.le_of_not_lt hlt
      cases g with
      | zero => omega
      | succ g =>
        simp only [absorb, hge, if_true]
        apply ih
        · rw [List.length_drop]; omega
        · rw [List.length_drop]; omega

/-- With a full block in front, absorbing compresses it and goes on with the
rest. -/
theorem absorb_block (v : Words) (buf : List Byte) (h : 64 ≤ buf.length) :
    absorb buf.length v buf =
      absorb (buf.drop 64).length (compress v (buf.take 64)) (buf.drop 64) := by
  obtain ⟨n, hn⟩ : ∃ n, buf.length = n + 1 := ⟨buf.length - 1, by omega⟩
  have hstep : absorb (n + 1) v buf =
      absorb n (compress v (buf.take 64)) (buf.drop 64) := by
    simp only [absorb, h, if_true]
  rw [hn, hstep]
  apply absorb_fuel
  · rw [List.length_drop]; omega
  · rw [List.length_drop]; omega

/-- Absorbing `x ++ y` is absorbing `x` and then what `x` left over followed
by `y`. -/
theorem absorb_append (n : Nat) : ∀ (v : Words) (x y : List Byte), x.length ≤ n →
    absorb (x ++ y).length v (x ++ y) =
      absorb ((absorb x.length v x).2 ++ y).length (absorb x.length v x).1
        ((absorb x.length v x).2 ++ y) := by
  induction n with
  | zero =>
    intro v x y hx
    rw [absorb_short x.length v x (by omega)]
  | succ n ih =>
    intro v x y hx
    by_cases hlt : x.length < 64
    · rw [absorb_short x.length v x hlt]
    · have hge : 64 ≤ x.length := Nat.le_of_not_lt hlt
      have hge2 : 64 ≤ (x ++ y).length := by rw [List.length_append]; omega
      rw [absorb_block v (x ++ y) hge2, absorb_block v x hge,
        List.take_append_of_le_length hge, List.drop_append_of_le_length hge]
      apply ih
      rw [List.length_drop]; omega

/-- A write leaves fewer than 64 bytes in the buffer. -/
theorem absorb_buffer_lt (f : Nat) : ∀ (v : Words) (buf : List Byte),
    buf.length / 64 ≤ f → (absorb f v buf).2.length < 64 := by
  induction f with
  | zero =>
    intro v buf h
    simp only [absorb]
    omega
  | succ f ih =>
    intro v buf h
    by_cases hlt : buf.length < 64
    · rw [absorb_short _ v buf hlt]; exact hlt
    · have hge : 64 ≤ buf.length := Nat.le_of_not_lt hlt
      simp only [absorb, hge, if_true]
      apply ih
      rw [List.length_drop]; omega

/-- Two writes are one write of the concatenation. -/
theorem write_write (st : DigestState) (a b : List Byte) :
    (st.write a).write b = st.write (a ++ b) := by
  unfold DigestState.write
  simp only
  rw [← List.append_assoc, absorb_append (st.buffer ++ a).length _ _ _ (Nat.le_refl _)]
  congr 1
  rw [List.length_append]
  omega

/-- Writing nothing into the initial state leaves it as it is. -/
theorem initial_write_nil : DigestState.initial.write [] = DigestState.initial := by
  decide

/-- The invariants of the digest state hold after every write: fewer than 64
pending bytes, a byte count below `2 ^ 64`. -/
theorem write_invariants (st : DigestState) (data : List Byte) :
    (st.write data).buffer.length < 64 ∧ (st.write data).totalLength < 2 ^ 64 := by
  unfold DigestState.write
  exact ⟨absorb_buffer_lt _ _ _ (Nat.div_le_self _ _), Nat.mod_lt _ (by decide)⟩

/-- After any write, writing nothing changes nothing. -/
theorem write_write_nil (st : DigestState) (a : List Byte) :
    (st.write a).write [] = st.write a := by
  rw [write_write, List.append_nil]

/-! ## The digest engine behind the wrapper -/

/-- Reading a slot that was just stored gives the stored value. -/
theorem lookup_store (hp : Heap) (k : Nat) (v : Option DigestState) (h : k < hp.length) :
    (hp.store (some k) v).lookup (some k) = v := by
  simp [Heap.lookup, Heap.store, List.getD_eq_getElem?_getD, List.getElem?_set, h]

/-- Only slots inside the heap hold a live state. -/
theorem lookup_lt (hp : Heap) (k : Nat) (st : DigestState)
    (h : hp.lookup (some k) = some st) : k < hp.length := by
  by_contra hge
  have : hp.getD k none = none := by
    simp [List.getD_eq_getElem?_getD, List.getElem?_eq_none (Nat.le_of_not_lt hge)]
  simp only [Heap.lookup] at h
  rw [this] at h
  cases h

/-- Construction on the specified engine succeeds and leaves the new context
in the initial state. -/
theorem New_spec (e : Ptr) (w : World Heap) :
    (NewSM3HashWithEngine specNative e w).1 = (some ⟨some w.native.length, e⟩, none) ∧
    (NewSM3HashWithEngine specNative e w).2.native.lookup (some w.native.length) =
      some DigestState.initial := by
  have hlook : Heap.lookup (w.native ++ [some DigestState.initial]) (some w.native.length) =
      some DigestState.initial := by
    simp [Heap.lookup, List.getD_eq_getElem?_getD]
  have hinit : specNative.X_EVP_DigestInit_ex (some w.native.length) specNative.X_EVP_sm3
      (specNative.engineRef e) (w.native ++ [some DigestState.initial]) =
      (1, Heap.store (w.native ++ [some DigestState.initial]) (some w.native.length)
        (some DigestState.initial)) := by
    simp only [specNative, hlook]
  have halloc : specNative.X_EVP_MD_CTX_new w.native =
      (some w.native.length, w.native ++ [some DigestState.initial]) := rfl
  have hnew : NewSM3HashWithEngine specNative e w =
      ((some ⟨some w.native.length, e⟩, none),
       { native := Heap.store (w.native ++ [some DigestState.initial]) (some w.native.length)
           (some DigestState.initial),
         calls := w.calls ++ [Call.ctxNew] ++
           [Call.digestInit (some w.native.length) specNative.X_EVP_sm3
             (specNative.engineRef e)] }) := by
    simp only [NewSM3HashWithEngine, Reset, halloc, hinit]
    simp
  rw [hnew]
  refine ⟨rfl, ?_⟩
  apply lookup_store
  simp

/-- A write through the wrapper on a live context of the specified engine
succeeds and leaves the context in the state the engine's `write` gives. -/
theorem Write_spec (s : SM3Hash) (p : List Byte) (w : World Heap) (st : DigestState)
    (hlive : w.native.lookup s.ctx = some st) (hnil : st.write [] = st) :
    ∃ w1 : World Heap,
      Write specNative s p w = some ((p.length, none), w1) ∧
      w1.native.lookup s.ctx = some (st.write p) := by
  rw [Write_eq]
  cases p with
  | nil => exact ⟨w, by simp, by rw [hnil]; exact hlive⟩
  | cons b bs =>
    obtain ⟨ctx, engine⟩ := s
    cases ctx with
    | none => simp [Heap.lookup] at hlive
    | some k =>
      have hk := lookup_lt _ _ _ hlive
      simp only at hlive
      have hupd : specNative.X_EVP_DigestUpdate (some k) (b :: bs) w.native =
          (1, Heap.store w.native (some k) (some (st.write (b :: bs)))) := by
        simp only [specNative, hlive]
      simp only [hupd]
      exact ⟨{ native := Heap.store w.native (some k) (some (st.write (b :: bs))),
               calls := w.calls ++ [Call.digestUpdate (some k) (b :: bs)] },
        by simp, lookup_store _ _ _ hk⟩

/-- On a live context of the specified engine `Sum` succeeds, returns the
digest of the engine's `finalize` and leaves the context in the initial
state. -/
theorem Sum_spec (s : SM3Hash) (w : World Heap) (st : DigestState)
    (hlive : w.native.lookup s.ctx = some st) :
    (Sum specNative s w).1 = (st.final.1, none) ∧
    (Sum specNative s w).2.native.lookup s.ctx = some DigestState.initial := by
  obtain ⟨ctx, engine⟩ := s
  cases ctx with
  | none => simp [Heap.lookup] at hlive
  | some k =>
    have hk := lookup_lt _ _ _ hlive
    simp only at hlive
    have h2 : Heap.lookup (Heap.store w.native (some k) (some st.final.2)) (some k) =
        some st.final.2 := lookup_store _ _ _ hk
    have hfin : specNative.X_EVP_DigestFinal_ex (some k) zeroDigest w.native =
        (1, st.final.1, Heap.store w.native (some k) (some st.final.2)) := by
      simp only [specNative, hlive]
    have hinit : specNative.X_EVP_DigestInit_ex (some k) specNative.X_EVP_sm3
        (specNative.engineRef engine) (Heap.store w.native (some k) (some st.final.2)) =
        (1, Heap.store (Heap.store w.native (some k) (some st.final.2)) (some k)
          (some DigestState.initial)) := by
      simp only [specNative, h2]
    have hsum : Sum specNative ⟨some k, engine⟩ w =
        ((st.final.1, none),
         { native := Heap.store (Heap.store w.native (some k) (some st.final.2)) (some k)
             (some DigestState.initial),
           calls := w.calls ++ [Call.digestFinal (some k)] ++
             [Call.digestInit (some k) specNative.X_EVP_sm3 (specNative.engineRef engine)] }) := by
      simp only [Sum, Reset, hfin, hinit]
      simp
    rw [hsum]
    refine ⟨rfl, ?_⟩
    apply lookup_store
    simp [Heap.store, hk]

/-- A run of writes through the wrapper on a live context of the specified
engine: every write returns its length and no error, and the context ends in
the state one engine `write` of the concatenation gives. -/
theorem WriteEach_spec (s : SM3Hash) (chunks : List (List Byte)) :
    ∀ (w : World Heap) (st : DigestState),
      w.native.lookup s.ctx = some st → st.write [] = st →
      ∃ w1 : World Heap,
        WriteEach specNative s chunks w =
          some (chunks.map (fun c => (c.length, none)), w1) ∧
        w1.native.lookup s.ctx = some (st.write chunks.flatten) := by
  induction chunks with
  | nil =>
    intro w st hlive hnil
    exact ⟨w, rfl, by simpa [hnil] using hlive⟩
  | cons c cs ih =>
    intro w st hlive hnil
    obtain ⟨w1, hw, hl1⟩ := Write_spec s c w st hlive hnil
    obtain ⟨w2, hw2, hl2⟩ := ih w1 (st.write c) hl1 (write_write_nil st c)
    refine ⟨w2, ?_, ?_⟩
    · simp [WriteEach, hw, hw2]
    · rw [hl2, write_write]; simp

/-- Writes then `Sum` through the wrapper on a freshly initialised context of
the specified engine give the engine's digest of the concatenation, with no
error anywhere. -/
theorem WriteEachThenSum_spec (s : SM3Hash) (chunks : List (List Byte)) (w : World Heap)
    (hlive : w.native.lookup s.ctx = some DigestState.initial) :
    ∃ w1 : World Heap,
      WriteEachThenSum specNative s chunks w =
        some ((chunks.map (fun c => (c.length, none)), (sm3Digest chunks.flatten, none)), w1) ∧
      w1.native.lookup s.ctx = some DigestState.initial := by
  obtain ⟨w1, hw, hl1⟩ := WriteEach_spec s chunks w _ hlive initial_write_nil
  obtain ⟨hs, hl2⟩ := Sum_spec s w1 _ hl1
  refine ⟨(Sum specNative s w1).2, ?_, hl2⟩
  simp only [WriteEachThenSum, hw, sm3Digest]
  rw [← hs]

/-- The one-shot function on the specified engine returns the engine's
digest of the data and no error, whatever the world it starts in. -/
theorem SM3_spec (data : List Byte) (w : World Heap) :
    (SM3 specNative data w).map Prod.fst = some (sm3Digest data, none) := by
  obtain ⟨hnew, hlook⟩ := New_spec none w
  unfold SM3 NewSM3Hash
  rcases hq : NewSM3HashWithEngine specNative none w with ⟨⟨hash, err⟩, w1⟩
  rw [hq] at hnew hlook
  simp only [Prod.mk.injEq] at hnew
  obtain ⟨rfl, rfl⟩ := hnew
  simp only at hlook
  obtain ⟨w2, hw, hl2⟩ :=
    Write_spec ⟨some w.native.length, none⟩ data w1 _ hlook initial_write_nil
  obtain ⟨hs, -⟩ := Sum_spec ⟨some w.native.length, none⟩ w2 _ hl2
  simp only [hw, Option.map_some', sm3Digest]
  rw [← hs]

/-! ## The claims about what the digest is -/

/-- C2: on the specified engine, for every engine pointer, every run of
writes `pre` already absorbed by a hash built by `NewSM3HashWithEngine` (none
at all included) and every byte sequence `s`: `Sum` then succeeds with the
digest of what was absorbed and leaves the context in the state it had right
after construction, the initial one; and `Sum(); Write(s); Sum()` on that hash
returns the same digest, with nil errors, as `Write(s); Sum()` on another hash
built the same way, namely the digest of `s` alone. -/
theorem Sum_then_reuse_as_fresh (e : Ptr) (wA wB : World Heap)
    (pre : List (List Byte)) (s : List Byte) :
    ∃ (hA hB : SM3Hash) (wP : World Heap) (d : Digest),
      (NewSM3HashWithEngine specNative e wA).1 = (some hA, none) ∧
      (NewSM3HashWithEngine specNative e wB).1 = (some hB, none) ∧
      WriteEach specNative hA pre (NewSM3HashWithEngine specNative e wA).2 =
        some (pre.map (fun c => (c.length, none)), wP) ∧
      wP.native.lookup hA.ctx = some (DigestState.initial.write pre.flatten) ∧
      (Sum specNative hA wP).1 = (sm3Digest pre.flatten, none) ∧
      (WriteEachThenSum specNative hA [s] (Sum specNative hA wP).2).map
        (fun r => r.1.2) = some (d, none) ∧
      (WriteEachThenSum specNative hB [s] (NewSM3HashWithEngine specNative e wB).2).map
        (fun r => r.1.2) = some (d, none) ∧
      d = sm3Digest s ∧
      (NewSM3HashWithEngine specNative e wA).2.native.lookup hA.ctx =
        some DigestState.initial ∧
      (Sum specNative hA wP).2.native.lookup hA.ctx =
        (NewSM3HashWithEngine specNative e wA).2.native.lookup hA.ctx := by
  obtain ⟨hnA, hlA⟩ := New_spec e wA
  obtain ⟨hnB, hlB⟩ := New_spec e wB
  obtain ⟨wP, hwP, hlP⟩ :=
    WriteEach_spec ⟨some wA.native.length, e⟩ pre _ _ hlA initial_write_nil
  obtain ⟨hsum, hlS⟩ := Sum_spec ⟨some wA.native.length, e⟩ wP _ hlP
  obtain ⟨wA2, hrA, -⟩ := WriteEachThenSum_spec ⟨some wA.native.length, e⟩ [s] _ hlS
  obtain ⟨wB2, hrB, -⟩ := WriteEachThenSum_spec ⟨some wB.native.length, e⟩ [s] _ hlB
  refine ⟨⟨some wA.native.length, e⟩, ⟨some wB.native.length, e⟩, wP, sm3Digest [s].flatten,
    hnA, hnB, hwP, hlP, ?_, ?_, ?_, ?_, hlA, ?_⟩
  · rw [hsum]; rfl
  · rw [hrA]; rfl
  · rw [hrB]; rfl
  · simp
  · rw [hlS]; exact hlA.symm

/-- C6: on the specified engine, for every list of chunks (empty ones
allowed), `Write(c1); ...; Write(cn); Sum()` on a fresh hash and
`Write(s); Sum()` on a fresh hash, `s` the concatenation of the chunks,
return the same digest with nil errors. -/
theorem streaming_equivalence (eA eB : Ptr) (wA wB : World Heap)
    (chunks : List (List Byte)) :
    ∃ (hA hB : SM3Hash) (d : Digest),
      (NewSM3HashWithEngine specNative eA wA).1 = (some hA, none) ∧
      (NewSM3HashWithEngine specNative eB wB).1 = (some hB, none) ∧
      (WriteEachThenSum specNative hA chunks (NewSM3HashWithEngine specNative eA wA).2).map
        (fun r => r.1.2) = some (d, none) ∧
      (WriteEachThenSum specNative hB [chunks.flatten]
          (NewSM3HashWithEngine specNative eB wB).2).map
        (fun r => r.1.2) = some (d, none) := by
  obtain ⟨hnA, hlA⟩ := New_spec eA wA
  obtain ⟨hnB, hlB⟩ := New_spec eB wB
  obtain ⟨wA2, hrA, -⟩ := WriteEachThenSum_spec ⟨some wA.native.length, eA⟩ chunks _ hlA
  obtain ⟨wB2, hrB, -⟩ :=
    WriteEachThenSum_spec ⟨some wB.native.length, eB⟩ [chunks.flatten] _ hlB
  refine ⟨⟨some wA.native.length, eA⟩, ⟨some wB.native.length, eB⟩, sm3Digest chunks.flatten,
    hnA, hnB, ?_, ?_⟩
  · rw [hrA]; rfl
  · rw [hrB]; simp

set_option maxRecDepth 100000 in
/-- C7: on the specified engine, `SM3` of the empty byte sequence and of the
three bytes `abc` return, with a nil error, the published SM3 test vectors. -/
theorem SM3_known_answers (w : World Heap) :
    (SM3 specNative [] w).map Prod.fst = some (⟨vectorEmpty, rfl⟩, none) ∧
    (SM3 specNative [0x61, 0x62, 0x63] w).map Prod.fst = some (⟨vectorAbc, rfl⟩, none) := by
  rw [SM3_spec, SM3_spec]
  have h1 : sm3Digest [] = ⟨vectorEmpty, rfl⟩ := by decide
  have h2 : sm3Digest [0x61, 0x62, 0x63] = ⟨vectorAbc, rfl⟩ := by decide
  rw [h1, h2]
  exact ⟨rfl, rfl⟩

end OpenSSL
